import Mathlib

/-!
Verification of the rendering/viewport engine of the `bt` terminal file-tree
browser (package `ui`: `Render`, `renderHeading`, `renderTreeWithContent`,
`cropTree`, `renderTree`, `formatSize`).

The Go source is shallowly embedded:

* Go `int` is modelled as `Int` (no overflow is reachable at the magnitudes
  involved), Go `float64` as the exact fraction type `Fl` (all float
  operations performed by the program on the inputs considered here are
  exact, and Go `%f` formatting rounds half to even, which is modelled
  exactly).
* Go slice expressions `xs[a:b]` are modelled by `goSlice`, which returns
  `none` exactly when Go would panic with a slice-bounds violation.
* The explicit stack loop of `renderTree` is modelled by `goLoop`, a
  fuel-indexed structurally recursive function; the fuel passed by
  `renderTree` (the node count of the tree) always suffices, and every lemma
  carries the corresponding bound.
* External collaborators that are not part of this repository (the `state`
  and `tree` packages, the `lipgloss` and `color` styling libraries, the
  capped content read) are modelled from the spec, never from guesses at
  their code; each such definition is marked `Modelled from the spec:` in
  its doc comment.  Styling is specified as content/width-neutral
  annotation, so it is modelled as the identity on text.
-/

namespace BT

/-! ## Exact model of the float64 values used by `formatSize`

`Fl` is a fraction `num / den` with `den` positive by construction.  The Go
code only compares (`>=`) and divides float64 values; on the inputs of the
claims both operations are exact in float64, so the fraction model is
faithful there. -/

/-- Exact fraction standing for a `float64` value `num / den` (`den` is kept
positive by every constructor use in this file). -/
structure Fl where
  num : Int
  den : Int
deriving DecidableEq

/-- Go `a >= b` on float64, as exact fraction comparison (dens positive). -/
def Fl.ge (a b : Fl) : Bool := b.num * a.den ≤ a.num * b.den

/-- Go `a / b` on float64, as exact fraction division (requires `0 < b.num`,
true for the base `1024.0` used by the program). -/
def Fl.div (a b : Fl) : Fl := ⟨a.num * b.den, a.den * b.num⟩

/-- Digit character for `d < 10`. -/
def digitChar (d : Nat) : Char := Char.ofNat (48 + d)

/-- Decimal digits of a natural number (fuel-indexed; `fuel = n + 1`
always suffices since `n / 10 < n` for `n ≥ 10`). -/
def natDigits : Nat → Nat → String
  | 0, _ => ""
  | f + 1, n =>
    if n < 10 then String.mk [digitChar n]
    else natDigits f (n / 10) ++ String.mk [digitChar (n % 10)]

/-- Decimal string of a natural number. -/
def natToStr (n : Nat) : String := natDigits (n + 1) n

/-- Round `num / den` (with `0 < den`) to the nearest integer, ties to even:
the rounding performed by Go `fmt` `%f` verbs (IEEE round half to even; the
values formatted by the claims are exactly representable). -/
def roundHalfEven (num den : Int) : Int :=
  let fl := Int.fdiv num den
  let r := num - fl * den
  if 2 * r < den then fl
  else if den < 2 * r then fl + 1
  else if Int.emod fl 2 = 0 then fl else fl + 1

/-- Go `fmt.Sprintf("%.0f", v)` for an exactly represented value. -/
def fmt0 (v : Fl) : String :=
  let n := roundHalfEven v.num v.den
  (if n < 0 then "-" else "") ++ natToStr n.natAbs

/-- Go `fmt.Sprintf("%.2f", v)` for an exactly represented value. -/
def fmt2 (v : Fl) : String :=
  let n := roundHalfEven (v.num * 100) v.den
  let a := n.natAbs
  (if n < 0 then "-" else "") ++ natToStr (a / 100) ++ "." ++
    (if a % 100 < 10 then "0" else "") ++ natToStr (a % 100)

/-- The unit array `sizes` of `ui.go`. -/
def sizes : List String := ["b", "Kb", "Mb", "Gb", "Tb", "Pb", "Eb"]

/-- The `for s >= base && i < unitsLimit` loop of `formatSize`.  The loop
body runs at most `sizes.length` times because `i` increases by one per
iteration, so the fuel `sizes.length + 1` passed by `formatSize` is never
exhausted. -/
def sizeLoop (base : Fl) : Nat → Fl → Nat → Fl × Nat
  | 0, s, i => (s, i)
  | fuel + 1, s, i =>
    if Fl.ge s base ∧ i < sizes.length
    then sizeLoop base fuel (Fl.div s base) (i + 1)
    else (s, i)

/-- `formatSize` of the source.  Returns `none` exactly when Go would panic:
the final `sizes[i]` indexes out of range when the loop exits with
`i = len(sizes)`, which happens for `s ≥ base ^ len(sizes)`. -/
def formatSize (s base : Fl) : Option String :=
  let p := sizeLoop base (sizes.length + 1) s 0
  (sizes.get? p.2).map (fun u =>
    (if p.2 > 1 then fmt2 p.1 else fmt0 p.1) ++ " " ++ u)

/-! ## The viewport crop (`cropTree`) -/

/-- Go slice expression `l[lo:hi]`: `none` models the runtime panic raised
when the bounds are invalid (`lo < 0`, `lo > hi` or `hi > len(l)`). -/
def goSlice (lo hi : Int) (l : List String) : Option (List String) :=
  if 0 ≤ lo ∧ lo ≤ hi ∧ hi ≤ (l.length : Int)
  then some ((l.drop lo.toNat).take (hi - lo).toNat)
  else none

/-- The offset computation of `cropTree` (the two boundary `if`s executed
when `windowHeight > 0`), as a pure function of the renderer state and the
call arguments. -/
def cropOffset (edgePadding offsetMem currentLine windowHeight linesLen : Int) : Int :=
  let offset := offsetMem
  let offset :=
    if currentLine + 1 > windowHeight + offset - edgePadding
    then min (currentLine + 1 - windowHeight + edgePadding) (linesLen - windowHeight)
    else offset
  if currentLine < edgePadding + offset then max (currentLine - edgePadding) 0 else offset

/-- `cropTree` of the source.  Returns the visible slice (`none` = the Go
slice expression panics) together with the value left in `r.offsetMem`. -/
def cropTree (edgePadding offsetMem : Int) (lines : List String)
    (currentLine windowHeight : Int) : Option (List String) × Int :=
  let linesLen : Int := lines.length
  if windowHeight > 0 then
    let offset := cropOffset edgePadding offsetMem currentLine windowHeight linesLen
    let limit := min (windowHeight + offset) linesLen
    (goSlice offset limit lines, offset)
  else
    (goSlice offsetMem linesLen lines, offsetMem)

/-! ## The tree snapshot consumed by the renderer

The `tree` package is an external collaborator (its code is not part of this
repository); the renderer only reads `Root`, `CurrentDir`, `Marked`,
`GetSelectedChild` and each node's `Info.Name()` / `Info.IsDir()` and
`Children`.  Nodes are identified by a numeric `id` standing for Go pointer
identity (the pointer comparisons `tree.CurrentDir == node` etc. become `id`
comparisons; ids are unique in a real tree since distinct nodes are distinct
pointers). -/

/-- The data the renderer reads from a node's `Info` (`os.FileInfo`). -/
structure NodeInfo where
  name : String
  isDir : Bool

/-- Modelled from the spec: a tree node with name/metadata and an ordered
children sequence that is either absent (`nil` slice: leaf or unexpanded,
not recursed into) or present (possibly empty: expanded directory).  The
`id` models pointer identity. -/
inductive Node where
  | mk (id : Nat) (nfo : NodeInfo) (children : Option (List Node))

/-- Pointer identity of a node. -/
def Node.id : Node → Nat
  | .mk i _ _ => i

/-- The `Info` of a node. -/
def Node.nfo : Node → NodeInfo
  | .mk _ f _ => f

/-- The `Children` slice of a node (`none` = Go `nil`). -/
def Node.children : Node → Option (List Node)
  | .mk _ _ c => c

mutual
/-- Number of nodes reachable by the traversal (children behind a `nil`
slice are not counted, matching the loop, which never visits them). -/
def Node.size : Node → Nat
  | .mk _ _ none => 1
  | .mk _ _ (some cs) => 1 + sizeL cs
/-- Sum of `Node.size` over a list of nodes. -/
def sizeL : List Node → Nat
  | [] => 0
  | c :: cs => Node.size c + sizeL cs
end

/-- Modelled from the spec: the data `renderHeading` reads about the
selected child (`GetSelectedChild`): identity, `Path`, the formatted
`ModTime` (opaque here) and `float64(Info.Size())`. -/
structure SelHandle where
  id : Nat
  path : String
  modTimeStr : String
  sizeF : Fl

/-- The tree snapshot: `Root` (possibly `nil`), `CurrentDir` (identity and
`Path`), the `GetSelectedChild` accessor and the `Marked` reference
(identity and `Path`).  Modelled from the spec for the parts owned by the
external `tree` package. -/
structure Tree where
  root : Option Node
  currentDirId : Nat
  currentDirPath : String
  selected : Option SelHandle
  marked : Option (Nat × String)

/-- Go `tree.GetSelectedChild() == node` (pointer comparison). -/
def Tree.selIs (t : Tree) (i : Nat) : Bool :=
  match t.selected with
  | some h => h.id == i
  | none => false

/-- Go `tree.Marked == node` (pointer comparison). -/
def Tree.markIs (t : Tree) (i : Nat) : Bool :=
  match t.marked with
  | some m => m.1 == i
  | none => false

/-! ## Styling collaborators

Modelled from the spec: `colorize(text, role)` and the lipgloss styles
return annotated text "without altering logical rune count"; the annotations
are invisible to every property considered here, so styling is modelled as
the identity on the text content. -/

/-- Modelled from the spec: `color.BlueString` (path role), content-neutral. -/
def blueString (s : String) : String := s

/-- Modelled from the spec: `color.YellowString` (selection marker role),
content-neutral. -/
def yellowString (s : String) : String := s

/-- Modelled from the spec: `color.GreenString`, content-neutral. -/
def greenString (s : String) : String := s

/-- Modelled from the spec: `color.MagentaString`, content-neutral. -/
def magentaString (s : String) : String := s

/-- Modelled from the spec: the lipgloss background-highlight style used for
the marked node and the input buffer, content-neutral. -/
def bgRender (s : String) : String := s

/-! ## The tree flattening (`renderTree`) -/

/-- Go `strings.Repeat("  ", depth)`. -/
def indentStr (depth : Nat) : String := String.join (List.replicate depth "  ")

/-- The display line `renderTree` builds for one node at one depth: name
lookup, rune-aware truncation against the width budget (`6` runes reserved
for `"... <-"`), directory/marked styling and the selection marker.  Note
the directory branch re-reads `node.Info.Name()`, discarding the truncation
(the line Go marks `TODO: probably bug here`). -/
def fmtLine (t : Tree) (widthLim : Int) (n : Node) (depth : Nat) : String :=
  let name := n.nfo.name
  let nameRuneCountNoStyle : Int := name.length
  let indent := indentStr depth
  let indentRuneCount : Int := indent.length
  let name :=
    if nameRuneCountNoStyle + indentRuneCount > widthLim - 6
    then String.mk (name.toList.take (max 0 (widthLim - indentRuneCount - 6)).toNat) ++ "..."
    else name
  let name := if n.nfo.isDir then blueString n.nfo.name else name
  let name := if t.markIs n.id then bgRender name else name
  let repr := indent ++ name
  if t.selIs n.id then repr ++ yellowString " <-" else repr

/-- The synthetic placeholder line emitted below an empty `CurrentDir`. -/
def phLine (depth : Nat) : String := indentStr depth ++ "..." ++ yellowString " <-"

/-- The condition under which the loop emits the placeholder for a node:
non-`nil`, empty children and pointer identity with `CurrentDir`. -/
def phGuard (t : Tree) (n : Node) : Bool :=
  (match n.children with
   | some cs => cs.isEmpty
   | none => false) && (t.currentDirId == n.id)

/-- Total `Node.size` of the nodes on the traversal stack. -/
def stackSize : List (Node × Nat) → Nat
  | [] => 0
  | (n, _) :: rest => n.size + stackSize rest

/-- The explicit-stack loop of `renderTree`.  The stack is a list with its
top at the head (the Go code pops from the end of a slice; pushing the
children in reverse index order therefore makes them pop in stored order,
which is the `List.foldl` over `cs.reverse` below).  `linen` is the
pop counter (`-1` before the first pop in Go), `lines` the accumulated
output, `cur` the selected-row accumulator.  `fuel` bounds the number of
iterations; every call in this file supplies `fuel ≥ stackSize stack`,
which suffices because each iteration pops one node and pushes only its
children. -/
def goLoop (t : Tree) (wl : Int) :
    Nat → List (Node × Nat) → Int → List String → Int → List String × Int
  | _, [], _, lines, cur => (lines, cur)
  | 0, _ :: _, _, lines, cur => (lines, cur)
  | fuel + 1, (n, d) :: rest, linen, lines, cur =>
    let linen' := linen + 1
    let cur' := if t.selIs n.id then linen' else cur
    let lines' := lines ++ [fmtLine t wl n d]
    match n.children with
    | none => goLoop t wl fuel rest linen' lines' cur'
    | some cs =>
      let lines2 :=
        if cs.isEmpty && (t.currentDirId == n.id)
        then lines' ++ [phLine (d + 1)] else lines'
      let cur2 :=
        if cs.isEmpty && (t.currentDirId == n.id)
        then linen' + 1 else cur'
      goLoop t wl fuel (List.foldl (fun st c => (c, d + 1) :: st) rest cs.reverse)
        linen' lines2 cur2

/-- `renderTree` of the source: returns the flattened line list and the
index of the selected line.  A `nil` root makes the single loop iteration
hit the `node == nil` `continue`, leaving `([], 0)`. -/
def renderTree (t : Tree) (widthLim : Int) : List String × Int :=
  match t.root with
  | none => ([], 0)
  | some r => goLoop t widthLim r.size [(r, 0)] (-1) [] 0

mutual
/-- The claim's description of the flattening, written as structural
pre-order recursion: the parent's line first, then (for an empty
`CurrentDir`) the placeholder, then each child's whole subtree, siblings
left to right; `nil` children are not recursed into. -/
def preorderRender (t : Tree) (wl : Int) : Node → Nat → List String
  | n@(.mk _ _ none), d => [fmtLine t wl n d]
  | n@(.mk _ _ (some cs)), d =>
    fmtLine t wl n d ::
      ((if cs.isEmpty && (t.currentDirId == n.id) then [phLine (d + 1)] else [])
        ++ preorderRenderL t wl cs (d + 1))
/-- Pre-order flattening of a sibling list, left to right. -/
def preorderRenderL (t : Tree) (wl : Int) : List Node → Nat → List String
  | [], _ => []
  | c :: cs, d => preorderRender t wl c d ++ preorderRenderL t wl cs d
end

mutual
/-- The pre-order visiting sequence of the traversal: each visited node with
the depth at which it is visited. -/
def visitN : Node → Nat → List (Node × Nat)
  | n, d =>
    match n with
    | .mk _ _ none => [(n, d)]
    | .mk _ _ (some cs) => (n, d) :: visitL cs (d + 1)
/-- Pre-order visiting sequence of a sibling list. -/
def visitL : List Node → Nat → List (Node × Nat)
  | [], _ => []
  | c :: cs, d => visitN c d ++ visitL cs d
end

/-- The lines the loop emits for one visited node: its formatted line,
followed by the placeholder when the node is an empty `CurrentDir`. -/
def emitPair (t : Tree) (wl : Int) (p : Node × Nat) : List String :=
  fmtLine t wl p.1 p.2 :: (if phGuard t p.1 then [phLine (p.2 + 1)] else [])

/-- Concatenation of `preorderRender` over a traversal stack. -/
def stackRender (t : Tree) (wl : Int) : List (Node × Nat) → List String
  | [] => []
  | (n, d) :: rest => preorderRender t wl n d ++ stackRender t wl rest

/-- Concatenation of `visitN` over a traversal stack. -/
def visitStack : List (Node × Nat) → List (Node × Nat)
  | [] => []
  | (n, d) :: rest => visitN n d ++ visitStack rest

/-- The evolution of the selected-row accumulator over a visiting sequence,
for a tree without a selected child: `linen` advances by one per visited
node and the accumulator is overwritten with `linen + 1` (the index of the
just-emitted placeholder) at every empty-`CurrentDir` node. -/
def curUpd (t : Tree) : List (Node × Nat) → Int → Int → Int
  | [], _, cur => cur
  | (n, _) :: rest, linen, cur =>
    curUpd t rest (linen + 1) (if phGuard t n then linen + 2 else cur)

/-- Concatenation of `emitPair` over a visiting sequence. -/
def emitAll (t : Tree) (wl : Int) : List (Node × Nat) → List String
  | [] => []
  | p :: rest => emitPair t wl p ++ emitAll t wl rest

/-! ## Heading, preview content and `Render` -/

/-- The `Renderer` struct of the source: configured `EdgePadding` and the
persisted viewport offset `offsetMem`. -/
structure Renderer where
  edgePadding : Int
  offsetMem : Int

/-- Modelled from the spec: the slice of `state.State` the renderer reads
(tree snapshot, operation buffer representation and input state), together
with the outcome of the external capped content read
(`ReadSelectedChildContent`: `none` = error = "no preview available"). -/
structure State where
  tree : Tree
  opBufRepr : String
  opBufIsInput : Bool
  inputBuf : String
  selectedContent : Option (List Nat)

/-- Source constant `minHeight`. -/
def minHeight : Int := 10

/-- Source constant `minWidth`. -/
def minWidth : Int := 10

/-- Source constant `previewBytesLimit` (the cap of the external read). -/
def previewBytesLimit : Int := 10000

/-- The operation bar (third heading row) of `renderHeading`. -/
def operationBar (s : State) : String :=
  let markedPath := match s.tree.marked with
    | none => ""
    | some m => m.2
  let bar := ": " ++ s.opBufRepr
  let bar := if markedPath ≠ "" then bar ++ " [" ++ markedPath ++ "]" else bar
  if s.opBufIsInput then bar ++ " | " ++ bgRender s.inputBuf ++ " |" else bar

/-- `renderHeading` of the source: the newline-join of the three-element
`header` slice (selected path or the `CurrentDir.Path + "/..."` fallback;
change time or `"--"`; size or the literal `"0 B"`; then the operation bar)
together with `len(header)`, which is the literal list length `3`.  `none`
models the `formatSize` index panic (unreachable for int64 sizes). -/
def renderHeading (s : State) : Option (String × Nat) :=
  let hd := match s.tree.selected with
    | none => some (s.tree.currentDirPath ++ "/...", "--", "0 B")
    | some sel => (formatSize sel.sizeF ⟨1024, 1⟩).map fun sz => (sel.path, sel.modTimeStr, sz)
  hd.map fun pcs =>
    (greenString ("> " ++ pcs.1) ++ "\n" ++
       magentaString (pcs.2.1 ++ " : " ++ pcs.2.2) ++ "\n" ++ operationBar s, 3)

/-- The heading string produced when no child is selected (all three
fallbacks active). -/
def headingNoSel (s : State) : String :=
  greenString ("> " ++ s.tree.currentDirPath ++ "/...") ++ "\n" ++
    magentaString ("--" ++ " : " ++ "0 B") ++ "\n" ++ operationBar s

/-- Whether a byte is a UTF-8 continuation byte. -/
def isCont (b : Nat) : Bool := 128 ≤ b && b < 192

/-- Payload bits of a continuation byte. -/
def contVal (b : Nat) : Nat := b - 128

/-- Modelled from Go's standard `unicode/utf8` (external to the repository):
UTF-8 decoding of a byte list, `none` on any invalid encoding (overlong
forms, surrogates, scalars past U+10FFFF, truncated or stray bytes).  The
fuel decreases once per decoded character while each character consumes at
least one byte, so `length + 1` suffices. -/
def utf8DecodeAux : Nat → List Nat → Option (List Char)
  | _, [] => some []
  | 0, _ :: _ => none
  | f + 1, b :: bs =>
    if b < 128 then
      (utf8DecodeAux f bs).map (fun cs => Char.ofNat b :: cs)
    else if 194 ≤ b && b ≤ 223 then
      match bs with
      | c1 :: bs2 =>
        if isCont c1 then
          (utf8DecodeAux f bs2).map (fun cs => Char.ofNat ((b - 192) * 64 + contVal c1) :: cs)
        else none
      | [] => none
    else if 224 ≤ b && b ≤ 239 then
      match bs with
      | c1 :: c2 :: bs2 =>
        if (if b == 224 then decide (160 ≤ c1 ∧ c1 < 192)
            else if b == 237 then decide (128 ≤ c1 ∧ c1 < 160)
            else isCont c1) && isCont c2 then
          (utf8DecodeAux f bs2).map
            (fun cs => Char.ofNat ((b - 224) * 4096 + contVal c1 * 64 + contVal c2) :: cs)
        else none
      | _ => none
    else if 240 ≤ b && b ≤ 244 then
      match bs with
      | c1 :: c2 :: c3 :: bs2 =>
        if (if b == 240 then decide (144 ≤ c1 ∧ c1 < 192)
            else if b == 244 then decide (128 ≤ c1 ∧ c1 < 144)
            else isCont c1) && isCont c2 && isCont c3 then
          (utf8DecodeAux f bs2).map
            (fun cs =>
              Char.ofNat ((b - 240) * 262144 + contVal c1 * 4096 + contVal c2 * 64 + contVal c3) :: cs)
        else none
      | _ => none
    else none

/-- Go `utf8.Valid` plus `string(content)`, fused: the decoded text when the
bytes are valid UTF-8. -/
def utf8Decode (bs : List Nat) : Option String :=
  (utf8DecodeAux (bs.length + 1) bs).map String.mk

/-- Modelled from the spec: `lipgloss.Width`, the actual rendered width of
a block (the rune width of its widest line). -/
def lipglossWidth (s : String) : Int :=
  ((s.splitOn "\n").map String.length).foldl max 0

/-- Modelled from the spec: rendering through the `MaxWidth(w)` tree style;
the styling layer is content-neutral for every property considered here. -/
def maxWidthRender (_w : Int) (s : String) : String := s

/-- Modelled from the spec: the italic, bordered, margined preview box
(`contentStyle.Render`), content-neutral. -/
def frameRender (_marginLeft _maxW : Int) (s : String) : String := s

/-- Modelled from the spec: `lipgloss.JoinHorizontal`, merging the two pane
blocks side by side. -/
def joinHorizontal (a b : String) : String := a ++ b

/-- `renderTreeWithContent` of the source: the too-small guard, the
tree-pane pipeline (flatten, crop, style at half the window width), the
preview fallback on read error, the binary-content placeholder and the
height cap on preview lines.  Returns the block (`none` = the `cropTree`
slice panics) and the new `offsetMem`. -/
def renderTreeWithContent (cfg : Renderer) (t : Tree) (contentRead : Option (List Nat))
    (winHeight winWidth : Int) : Option String × Int :=
  if winWidth < minWidth ∨ winHeight < minHeight then
    (some "too small =(\n", cfg.offsetMem)
  else
    let sectionWidth := Int.fdiv winWidth 2
    let rt := renderTree t sectionWidth
    let cropped := cropTree cfg.edgePadding cfg.offsetMem rt.1 rt.2 winHeight
    match cropped.1 with
    | none => (none, cropped.2)
    | some croppedTree =>
      let renderedStyledTree := maxWidthRender sectionWidth (String.intercalate "\n" croppedTree)
      match contentRead with
      | none => (some renderedStyledTree, cropped.2)
      | some bytes =>
        let leftMargin := sectionWidth - lipglossWidth renderedStyledTree
        let contentLines :=
          match utf8Decode bytes with
          | none => ["<binary content>"]
          | some str =>
            let ls := str.splitOn "\n"
            ls.take (max (min winHeight (ls.length : Int)) 0).toNat
        (some (joinHorizontal renderedStyledTree
            (frameRender leftMargin (sectionWidth + leftMargin - 1)
              (String.intercalate "\n" contentLines))), cropped.2)

/-- `Render` of the source: heading block, newline, tree/preview block,
with the heading's row count deducted from the height handed to
`renderTreeWithContent`.  Returns the frame (`none` = a Go panic inside)
and the new `offsetMem`. -/
def Render (cfg : Renderer) (s : State) (winHeight winWidth : Int) : Option String × Int :=
  match renderHeading s with
  | none => (none, cfg.offsetMem)
  | some hd =>
    let rt := renderTreeWithContent cfg s.tree s.selectedContent
      (winHeight - (hd.2 : Int)) winWidth
    match rt.1 with
    | none => (none, rt.2)
    | some body => (some (hd.1 ++ "\n" ++ body), rt.2)

/-! ## Concrete instances used by witnesses and counterexamples -/

/-- An expanded, empty directory serving as `CurrentDir`. -/
def cdEx : Node := Node.mk 1 ⟨"sub", true⟩ (some [])

/-- A root directory whose only child is the empty `CurrentDir`. -/
def rootEx : Node := Node.mk 0 ⟨"root", true⟩ (some [cdEx])

/-- Tree snapshot browsing the empty directory `cdEx` (no selectable child,
so `GetSelectedChild` is nil). -/
def treeEx : Tree := ⟨some rootEx, 1, "/root/sub", none, none⟩

/-- State wrapping `treeEx`, with an idle operation buffer. -/
def stateEx : State := ⟨treeEx, "noop", false, "", none⟩

/-- A tree snapshot with no selection or mark, for line-formatting checks. -/
def tNoSel : Tree := ⟨none, 99, "", none, none⟩

/-- A directory node with a 20-rune name. -/
def dirLong : Node := Node.mk 0 ⟨"abcdefghijklmnopqrst", true⟩ none

/-- A file node with the same 20-rune name. -/
def fileLong : Node := Node.mk 1 ⟨"abcdefghijklmnopqrst", false⟩ none

/-- A ten-line rendered list. -/
def tenLines : List String := List.replicate 10 "x"

/-- A directory holding eight files: flattened, nine lines. -/
def dirNine : Node :=
  Node.mk 0 ⟨"dir", true⟩ (some
    [Node.mk 1 ⟨"f1", false⟩ none, Node.mk 2 ⟨"f2", false⟩ none,
     Node.mk 3 ⟨"f3", false⟩ none, Node.mk 4 ⟨"f4", false⟩ none,
     Node.mk 5 ⟨"f5", false⟩ none, Node.mk 6 ⟨"f6", false⟩ none,
     Node.mk 7 ⟨"f7", false⟩ none, Node.mk 8 ⟨"f8", false⟩ none])

/-- Tree snapshot of `dirNine` with the last file selected: `renderTree`
yields nine lines with selected row 8. -/
def treeNine : Tree := ⟨some dirNine, 0, "/dir", some ⟨8, "/dir/f8", "tm", ⟨100, 1⟩⟩, none⟩

/-- State wrapping `treeNine` (preview read fails, so tree-only path). -/
def stateNine : State := ⟨treeNine, "", false, "", none⟩

/-- The heading `renderHeading` produces for `stateNine`. -/
def headingNine : String := "> /dir/f8" ++ "\n" ++ "tm : 100 b" ++ "\n" ++ ": "

/-! ## Lemmas about the traversal loop -/

theorem size_pos (n : Node) : 1 ≤ n.size := by
  rcases n with ⟨i, nfo, ch⟩
  cases ch <;> simp [Node.size]

theorem stackSize_append (a b : List (Node × Nat)) :
    stackSize (a ++ b) = stackSize a + stackSize b := by
  induction a with
  | nil => simp [stackSize]
  | cons p rest ih =>
    rcases p with ⟨n, d⟩
    simp [stackSize, ih]
    omega

theorem stackSize_map (cs : List Node) (d : Nat) :
    stackSize (cs.map (fun c => (c, d))) = sizeL cs := by
  induction cs with
  | nil => simp [stackSize, sizeL]
  | cons c cs ih => simp [stackSize, sizeL, ih]

theorem push_foldl (d : Nat) (cs : List Node) (rest : List (Node × Nat)) :
    List.foldl (fun st c => (c, d) :: st) rest cs.reverse
      = cs.map (fun c => (c, d)) ++ rest := by
  induction cs generalizing rest with
  | nil => simp
  | cons c cs ih => simp [List.foldl_append, ih]

theorem stackRender_append (t : Tree) (wl : Int) (a b : List (Node × Nat)) :
    stackRender t wl (a ++ b) = stackRender t wl a ++ stackRender t wl b := by
  induction a with
  | nil => simp [stackRender]
  | cons p rest ih =>
    rcases p with ⟨n, d⟩
    simp [stackRender, ih]

theorem stackRender_map (t : Tree) (wl : Int) (cs : List Node) (d : Nat) :
    stackRender t wl (cs.map (fun c => (c, d))) = preorderRenderL t wl cs d := by
  induction cs with
  | nil => simp [stackRender, preorderRenderL]
  | cons c cs ih => simp [stackRender, preorderRenderL, ih]

theorem visitStack_append (a b : List (Node × Nat)) :
    visitStack (a ++ b) = visitStack a ++ visitStack b := by
  induction a with
  | nil => simp [visitStack]
  | cons p rest ih =>
    rcases p with ⟨n, d⟩
    simp [visitStack, ih]

theorem visitStack_map (cs : List Node) (d : Nat) :
    visitStack (cs.map (fun c => (c, d))) = visitL cs d := by
  induction cs with
  | nil => simp [visitStack, visitL]
  | cons c cs ih => simp [visitStack, visitL, ih]

/-- The loop's output lines: everything already accumulated, followed by the
pre-order rendering of the stack contents. -/
theorem goLoop_fst (t : Tree) (wl : Int) :
    ∀ (fuel : Nat) (st : List (Node × Nat)) (linen : Int) (lines : List String) (cur : Int),
      stackSize st ≤ fuel →
      (goLoop t wl fuel st linen lines cur).1 = lines ++ stackRender t wl st := by
  intro fuel
  induction fuel with
  | zero =>
    intro st linen lines cur h
    cases st with
    | nil => simp [goLoop, stackRender]
    | cons p rest =>
      exfalso
      rcases p with ⟨n, d⟩
      have := size_pos n
      simp [stackSize] at h
      omega
  | succ f ih =>
    intro st linen lines cur h
    cases st with
    | nil => simp [goLoop, stackRender]
    | cons p rest =>
      rcases p with ⟨n, d⟩
      rcases n with ⟨i, nfo, ch⟩
      have hsz : Node.size ⟨i, nfo, ch⟩ + stackSize rest ≤ f + 1 := by
        simpa [stackSize] using h
      cases ch with
      | none =>
        have hr : stackSize rest ≤ f := by
          simp [Node.size] at hsz; omega
        simp [goLoop, Node.children, stackRender, preorderRender, ih _ _ _ _ hr]
      | some cs =>
        have hr : stackSize (cs.map (fun c => (c, d + 1)) ++ rest) ≤ f := by
          rw [stackSize_append, stackSize_map]
          simp [Node.size] at hsz
          omega
        rw [goLoop]
        simp only [Node.children, Node.id, push_foldl]
        rw [ih _ _ _ _ hr]
        rw [stackRender_append, stackRender_map]
        by_cases hg : (cs.isEmpty && (t.currentDirId == i)) = true
        · simp [hg, stackRender, preorderRender, Node.id]
        · simp [hg, stackRender, preorderRender, Node.id]

theorem emitAll_append (t : Tree) (wl : Int) (a b : List (Node × Nat)) :
    emitAll t wl (a ++ b) = emitAll t wl a ++ emitAll t wl b := by
  induction a with
  | nil => simp [emitAll]
  | cons p rest ih => simp [emitAll, ih]

/-- On a stretch of the visiting sequence containing no empty-`CurrentDir`
node, the loop emits exactly one formatted line per visited node. -/
theorem emitAll_nog (t : Tree) (wl : Int) (X : List (Node × Nat))
    (h : ∀ p ∈ X, phGuard t p.1 = false) :
    emitAll t wl X = X.map (fun p => fmtLine t wl p.1 p.2) := by
  induction X with
  | nil => simp [emitAll]
  | cons p rest ih =>
    have hp := h p (by simp)
    simp [emitAll, emitPair, hp, ih fun q hq => h q (by simp [hq])]

/-- The loop's output lines, expressed over the visiting sequence: one
`emitPair` per visited node. -/
theorem goLoop_fst_emit (t : Tree) (wl : Int) :
    ∀ (fuel : Nat) (st : List (Node × Nat)) (linen : Int) (lines : List String) (cur : Int),
      stackSize st ≤ fuel →
      (goLoop t wl fuel st linen lines cur).1 = lines ++ emitAll t wl (visitStack st) := by
  intro fuel
  induction fuel with
  | zero =>
    intro st linen lines cur h
    cases st with
    | nil => simp [goLoop, visitStack, emitAll]
    | cons p rest =>
      exfalso
      rcases p with ⟨n, d⟩
      have := size_pos n
      simp [stackSize] at h
      omega
  | succ f ih =>
    intro st linen lines cur h
    cases st with
    | nil => simp [goLoop, visitStack, emitAll]
    | cons p rest =>
      rcases p with ⟨n, d⟩
      rcases n with ⟨i, nfo, ch⟩
      have hsz : Node.size ⟨i, nfo, ch⟩ + stackSize rest ≤ f + 1 := by
        simpa [stackSize] using h
      cases ch with
      | none =>
        have hr : stackSize rest ≤ f := by
          simp [Node.size] at hsz; omega
        simp [goLoop, Node.children, ih _ _ _ _ hr, visitStack, visitN, emitAll,
          emitPair, phGuard, Node.children]
      | some cs =>
        have hr : stackSize (cs.map (fun c => (c, d + 1)) ++ rest) ≤ f := by
          rw [stackSize_append, stackSize_map]
          simp [Node.size] at hsz
          omega
        rw [goLoop]
        simp only [Node.children, Node.id, push_foldl]
        rw [ih _ _ _ _ hr]
        rw [visitStack_append, visitStack_map, emitAll_append]
        by_cases hg : (cs.isEmpty && (t.currentDirId == i)) = true
        · simp [hg, visitStack, visitN, emitAll, emitAll_append, emitPair, phGuard,
            Node.children, Node.id]
        · simp [hg, visitStack, visitN, emitAll, emitAll_append, emitPair, phGuard,
            Node.children, Node.id]

/-- `preorderRender` emits, for each visited node in pre-order, its line
followed by the placeholder when the node is an empty `CurrentDir`. -/
theorem preorderRender_eq_emitAll (t : Tree) (wl : Int) (n : Node) (d : Nat) :
    preorderRender t wl n d = emitAll t wl (visitN n d) := by
  have h1 := goLoop_fst t wl n.size [(n, d)] (-1) [] 0 (by simp [stackSize])
  have h2 := goLoop_fst_emit t wl n.size [(n, d)] (-1) [] 0 (by simp [stackSize])
  rw [h1] at h2
  simpa [stackRender, visitStack] using h2

theorem curUpd_append (t : Tree) (a b : List (Node × Nat)) :
    ∀ (linen cur : Int),
      curUpd t (a ++ b) linen cur = curUpd t b (linen + a.length) (curUpd t a linen cur) := by
  induction a with
  | nil => intro linen cur; simp [curUpd]
  | cons p rest ih =>
    intro linen cur
    rcases p with ⟨n, d⟩
    have h2 : linen + 1 + ((rest.length : Nat) : Int)
        = linen + ((((n, d) :: rest).length : Nat) : Int) := by
      simp only [List.length_cons]
      push_cast
      ring
    simp only [List.cons_append, curUpd, List.append_eq]
    rw [ih, h2]

theorem curUpd_nog (t : Tree) (X : List (Node × Nat))
    (h : ∀ p ∈ X, phGuard t p.1 = false) :
    ∀ (linen cur : Int), curUpd t X linen cur = cur := by
  induction X with
  | nil => intro linen cur; rfl
  | cons p rest ih =>
    intro linen cur
    rcases p with ⟨n, d⟩
    have hp := h (n, d) (by simp)
    simp [curUpd, hp, ih fun q hq => h q (by simp [hq])]

/-- The loop's returned selected-row index, for a tree without a selected
child: the accumulator is rewritten to the placeholder's index at every
empty-`CurrentDir` visit. -/
theorem goLoop_snd (t : Tree) (wl : Int) (hsel : t.selected = none) :
    ∀ (fuel : Nat) (st : List (Node × Nat)) (linen : Int) (lines : List String) (cur : Int),
      stackSize st ≤ fuel →
      (goLoop t wl fuel st linen lines cur).2 = curUpd t (visitStack st) linen cur := by
  intro fuel
  induction fuel with
  | zero =>
    intro st linen lines cur h
    cases st with
    | nil => simp [goLoop, visitStack, curUpd]
    | cons p rest =>
      exfalso
      rcases p with ⟨n, d⟩
      have := size_pos n
      simp [stackSize] at h
      omega
  | succ f ih =>
    intro st linen lines cur h
    cases st with
    | nil => simp [goLoop, visitStack, curUpd]
    | cons p rest =>
      rcases p with ⟨n, d⟩
      rcases n with ⟨i, nfo, ch⟩
      have hsz : Node.size ⟨i, nfo, ch⟩ + stackSize rest ≤ f + 1 := by
        simpa [stackSize] using h
      cases ch with
      | none =>
        have hr : stackSize rest ≤ f := by
          simp [Node.size] at hsz; omega
        simp [goLoop, Node.children, Tree.selIs, hsel, ih _ _ _ _ hr, visitStack,
          visitN, curUpd, phGuard, Node.children]
      | some cs =>
        have hr : stackSize (cs.map (fun c => (c, d + 1)) ++ rest) ≤ f := by
          rw [stackSize_append, stackSize_map]
          simp [Node.size] at hsz
          omega
        rw [goLoop]
        simp only [Node.children, Node.id, push_foldl, Tree.selIs, hsel]
        rw [ih _ _ _ _ hr]
        rw [visitStack_append, visitStack_map]
        by_cases hg : (cs.isEmpty && (t.currentDirId == i)) = true
        · simp [hg, visitStack, visitN, curUpd, phGuard, Node.children, Node.id]
          congr 1
          omega
        · simp [hg, visitStack, visitN, curUpd, phGuard, Node.children, Node.id]

/-! ## Lemmas about the viewport crop and the heading -/

/-- Applying the offset computation to its own result is the identity, as
long as the incoming offset already satisfies the viewport invariant
`0 ≤ offset ≤ max 0 (N - H)`. -/
theorem cropOffset_idem (P o S H N : Int) (ho2 : o ≤ max 0 (N - H)) :
    cropOffset P (cropOffset P o S H N) S H N = cropOffset P o S H N := by
  simp only [cropOffset]
  split_ifs <;> omega

/-- With a non-positive window height, `cropTree` skips the offset update
and returns `lines[offset:len(lines)]`: the suffix from the persisted
offset (the whole list only when that offset is `0`). -/
theorem cropTree_nonpos (P o : Int) (lines : List String) (S H : Int)
    (hH : H ≤ 0) (ho : 0 ≤ o) (ho2 : o ≤ (lines.length : Int)) :
    cropTree P o lines S H = (some (lines.drop o.toNat), o) := by
  simp only [cropTree, goSlice]
  rw [if_neg (by omega)]
  rw [if_pos ⟨ho, ho2, le_refl _⟩]
  have h3 : ((lines.length : Int) - o).toNat = lines.length - o.toNat := by omega
  rw [h3]
  have h4 : (lines.drop o.toNat).take (lines.length - o.toNat) = lines.drop o.toNat := by
    apply List.take_of_length_le
    simp
  rw [h4]

/-- Every successful `renderHeading` reports row count `3` (the header is a
literal three-element slice). -/
theorem renderHeading_len (s : State) (str : String) (k : Nat)
    (hh : renderHeading s = some (str, k)) : k = 3 := by
  unfold renderHeading at hh
  cases hs : s.tree.selected with
  | none =>
    rw [hs] at hh
    simp at hh
    omega
  | some sel =>
    rw [hs] at hh
    cases hf : formatSize sel.sizeF ⟨1024, 1⟩ with
    | none =>
      simp only [hf, Option.map_none, Option.map] at hh
      simp at hh
    | some sz =>
      simp only [hf] at hh
      simp at hh
      omega

/-! ## Claim theorems -/

/-- Claim C1: the claimed all-input viewport invariant (returned slice of
length `min(H, N)`, persisted offset in `[0, max(0, N - H)]` for every
`H > 0`, `N ≥ 0`, prior offset and selected index) fails on the code: with
four lines, selected row `3`, window height `5`, edge padding `2` and prior
offset `0`, `cropTree` computes and stores offset `-1` and its slice
expression `lines[-1:4]` is a bounds violation (Go panic, modelled by
`none`), instead of a slice of length `min(5, 4) = 4` and an offset in
`[0, 0]`. -/
theorem cropTree_invariant_violated_at_short_list :
    cropTree 2 0 ["a", "b", "c", "d"] 3 5 = (none, -1) := by decide

/-- Claim C2: the explicit-stack flattening emits lines in exact pre-order
of the stored child order — a parent's line first, then each child's whole
subtree, siblings left to right — and nodes whose children value is nil are
emitted but not recursed into.  `preorderRender` is that specification
written as structural pre-order recursion; the loop realizes it by pushing
children in reverse onto the last-in-first-out stack (`push_foldl` is the
reverse-push step). -/
theorem renderTree_emits_preorder (t : Tree) (wl : Int) :
    (renderTree t wl).1 = Option.elim t.root [] (fun r => preorderRender t wl r 0) := by
  cases hr : t.root with
  | none => simp [renderTree, hr]
  | some r =>
    simp only [renderTree, hr, Option.elim]
    rw [goLoop_fst t wl r.size [(r, 0)] (-1) [] 0 (by simp [stackSize])]
    simp [stackRender]

/-- Claim C3: when `CurrentDir` is a directory with zero (non-nil) children,
the flattening emits exactly one synthetic placeholder line — every other
line is the formatted line of a visited node — immediately after
`CurrentDir`'s own line, at `depth + 1`; the placeholder carries the
selection marker and the returned selected row points at it (an empty
`CurrentDir` has no child, so the external `GetSelectedChild` is nil). -/
theorem renderTree_empty_currentDir_placeholder
    (t : Tree) (wl : Int) (r cd : Node) (d : Nat) (A B : List (Node × Nat))
    (hroot : t.root = some r)
    (hsel : t.selected = none)
    (hcd : cd.children = some [])
    (hid : t.currentDirId = cd.id)
    (hvisit : visitN r 0 = A ++ (cd, d) :: B)
    (hA : ∀ p ∈ A, phGuard t p.1 = false)
    (hB : ∀ p ∈ B, phGuard t p.1 = false) :
    renderTree t wl =
      (A.map (fun p => fmtLine t wl p.1 p.2)
         ++ fmtLine t wl cd d :: phLine (d + 1)
            :: B.map (fun p => fmtLine t wl p.1 p.2),
       (A.length : Int) + 1)
    ∧ phLine (d + 1) = indentStr (d + 1) ++ "..." ++ " <-" := by
  have hguard : phGuard t cd = true := by
    rcases cd with ⟨i, nfo, ch⟩
    simp only [Node.children] at hcd
    subst hcd
    simp only [Node.id] at hid
    simp [phGuard, Node.children, Node.id, hid]
  have hfuel : stackSize [(r, 0)] ≤ r.size := by simp [stackSize]
  have h1 : (renderTree t wl).1 = emitAll t wl (visitN r 0) := by
    simp only [renderTree, hroot]
    rw [goLoop_fst_emit t wl r.size [(r, 0)] (-1) [] 0 hfuel]
    simp [visitStack]
  have h2 : (renderTree t wl).2 = curUpd t (visitN r 0) (-1) 0 := by
    simp only [renderTree, hroot]
    rw [goLoop_snd t wl hsel r.size [(r, 0)] (-1) [] 0 hfuel]
    simp [visitStack]
  refine ⟨?_, rfl⟩
  rw [Prod.ext_iff]
  constructor
  · rw [h1, hvisit, emitAll_append]
    rw [emitAll_nog t wl A hA]
    simp only [emitAll, emitPair, hguard]
    rw [emitAll_nog t wl B hB]
    simp
  · rw [h2, hvisit, curUpd_append]
    rw [curUpd_nog t A hA]
    simp only [curUpd, hguard, if_pos]
    rw [curUpd_nog t B hB]
    omega

theorem renderTree_empty_currentDir_placeholder_witness :
    renderTree treeEx 100 = (["root", "  sub", "    ... <-"], 2) := by
  have h := renderTree_empty_currentDir_placeholder treeEx 100 rootEx cdEx 1
    [(rootEx, 0)] [] rfl rfl rfl rfl rfl (by decide) (by decide)
  rw [h.1]
  decide

/-- Claim C4: names overflowing the width budget are claimed to be
truncated to `max(0, W - indent - 6)` whole runes plus an ellipsis,
"including for directory nodes".  The code truncates the 20-rune name on a
file (budget 10, depth 0: the first 4 runes plus `"..."`), but the
directory branch then re-reads the full original `Info.Name()` (the line
carrying the source comment `TODO: probably bug here`), so the same name on
a directory is emitted whole and untruncated. -/
theorem renderTree_directory_name_not_truncated :
    fmtLine tNoSel 10 dirLong 0 = "abcdefghijklmnopqrst"
      ∧ fmtLine tNoSel 10 fileLong 0 = "abcd..." := by decide

/-- Claim C5 (counterexample): the size formatter does not return `"0 B"`
for input `0`: the unit array starts with lowercase `"b"` and the two-digit
format is only selected for the third unit upwards, so the claimed values
`"0 B"`, `"1.50 Kb"`, `"2.00 Kb"` are all wrong. -/
theorem formatSize_spec_values_refuted :
    formatSize ⟨0, 1⟩ ⟨1024, 1⟩ ≠ some "0 B" := by decide

/-- Claim C5 (amended): with base 1024 the formatter returns `"0 b"` for 0,
`"2 Kb"` for 1536 (the `Kb` tier formats with `%.0f`, and Go rounds 1.5
half-to-even to 2), `"1023 b"` for 1023 (the unit threshold triggers only
at ≥ base) and `"2 Kb"` for 2048. -/
theorem formatSize_actual_values :
    formatSize ⟨0, 1⟩ ⟨1024, 1⟩ = some "0 b"
      ∧ formatSize ⟨1536, 1⟩ ⟨1024, 1⟩ = some "2 Kb"
      ∧ formatSize ⟨1023, 1⟩ ⟨1024, 1⟩ = some "1023 b"
      ∧ formatSize ⟨2048, 1⟩ ⟨1024, 1⟩ = some "2 Kb" := by decide

/-- Claim C6 (counterexample): two consecutive crops with unchanged
selection and sizes are not idempotent for every prior offset: from prior
offset `8` (outside the invariant range of a 10-line list at height 4) with
selected row `9` and edge padding `2`, the first call stores `7` and the
second call moves it again, to `6`. -/
theorem cropTree_not_idempotent_from_invalid_offset :
    (cropTree 2 ((cropTree 2 8 tenLines 9 4).2) tenLines 9 4).2 = 6
      ∧ (cropTree 2 8 tenLines 9 4).2 = 7 := by decide

/-- Claim C6 (amended): two consecutive crops with unchanged selection and
sizes leave the persisted offset unchanged, provided the prior offset
already satisfies the viewport invariant `0 ≤ offset ≤ max(0, N - H)`. -/
theorem cropTree_idempotent_from_valid_offset
    (P o : Int) (lines : List String) (S H : Int)
    (hH : 0 < H) (_ho : 0 ≤ o) (ho2 : o ≤ max 0 ((lines.length : Int) - H)) :
    (cropTree P ((cropTree P o lines S H).2) lines S H).2
      = (cropTree P o lines S H).2 := by
  simp only [cropTree, if_pos hH]
  exact cropOffset_idem P o S H (lines.length : Int) ho2

theorem cropTree_idempotent_from_valid_offset_witness :
    (0 : Int) < 5 ∧ (0 : Int) ≤ 0 ∧ (0 : Int) ≤ max 0 ((tenLines.length : Int) - 5)
      ∧ (cropTree 1 ((cropTree 1 0 tenLines 4 5).2) tenLines 4 5).2
          = (cropTree 1 0 tenLines 4 5).2 :=
  ⟨by decide, by decide, by decide,
    cropTree_idempotent_from_valid_offset 1 0 tenLines 4 5 (by decide) (by decide) (by decide)⟩

/-- Claim C7 (counterexample): with `H ≤ 0` the crop does not return the
full line list for every prior offset: from persisted offset `1` on
`["a", "b"]` it returns `["b"]`. -/
theorem cropTree_nonpos_height_not_full_list :
    (cropTree 0 1 ["a", "b"] 0 0).1 = some ["b"]
      ∧ (cropTree 0 1 ["a", "b"] 0 0).1 ≠ some ["a", "b"] := by decide

/-- Claim C7 (amended): with `H ≤ 0` the crop leaves the persisted offset
untouched and returns the suffix of the line list starting at that offset
(the full list exactly when the offset is `0`; offsets outside `[0, N]`
make the slice expression panic). -/
theorem cropTree_nonpos_height_returns_suffix
    (P o : Int) (lines : List String) (S H : Int)
    (hH : H ≤ 0) (ho : 0 ≤ o) (ho2 : o ≤ (lines.length : Int)) :
    cropTree P o lines S H = (some (lines.drop o.toNat), o) :=
  cropTree_nonpos P o lines S H hH ho ho2

theorem cropTree_nonpos_height_returns_suffix_witness :
    (0 : Int) ≤ 0 ∧ (0 : Int) ≤ 1 ∧ (1 : Int) ≤ ((["a", "b"] : List String).length : Int)
      ∧ cropTree 0 1 ["a", "b"] 0 0 = (some ["b"], 1) :=
  ⟨by decide, by decide, by decide, by
    have h := cropTree_nonpos_height_returns_suffix 0 1 ["a", "b"] 0 0
      (by decide) (by decide) (by decide)
    simpa using h⟩

/-- Claim C8: `Render` is claimed total, but both named indexings can go
out of bounds.  On a realistic frame — nine tree lines, selection on the
last line, edge padding 2, fresh offset, window 40×13 (so the tree pane is
cropped at height 10) — `cropTree` computes offset `-1` and its slice
expression panics, making `Render` fail (`none`); and for inputs
`≥ 1024 ^ 7` (= 2^70) the formatter's `sizes[i]` indexes out of range. -/
theorem render_not_total :
    Render ⟨2, 0⟩ stateNine 13 40 = (none, -1)
      ∧ formatSize ⟨1180591620717411303424, 1⟩ ⟨1024, 1⟩ = none := by decide

/-- Claim C9: whenever the total width or the total height is below the
configured minimum (10), `Render` skips the pane layout and emits the
literal `"too small =(\n"` notice in its place (below the heading), leaving
the persisted offset untouched. -/
theorem render_too_small_guard
    (cfg : Renderer) (s : State) (Ht Wt : Int) (rh : String) (k : Nat)
    (hh : renderHeading s = some (rh, k))
    (hsmall : Wt < minWidth ∨ Ht < minHeight) :
    Render cfg s Ht Wt = (some (rh ++ "\n" ++ "too small =(\n"), cfg.offsetMem) := by
  have hk : k = 3 := renderHeading_len s rh k hh
  subst hk
  have hcond : Wt < minWidth ∨ Ht - ((3 : Nat) : Int) < minHeight := by
    simp only [minWidth, minHeight] at hsmall ⊢
    omega
  unfold Render
  rw [hh]
  simp only [renderTreeWithContent, if_pos hcond]

theorem render_too_small_guard_witness :
    renderHeading stateNine = some (headingNine, 3)
      ∧ ((50 : Int) < minWidth ∨ (5 : Int) < minHeight)
      ∧ Render ⟨2, 0⟩ stateNine 5 50
          = (some (headingNine ++ "\n" ++ "too small =(\n"), 0) :=
  ⟨by decide, by decide,
    render_too_small_guard ⟨2, 0⟩ stateNine 5 50 headingNine 3 (by decide) (by decide)⟩

/-- Claim C10: the heading block is always the newline-join of exactly
three rows, `renderHeading` reports row count 3, and `Render` deducts
exactly three rows from the window height handed to the tree/preview
layout; with no selection the path row falls back to `CurrentDir.Path`
plus `"/..."`, the change time to `"--"` and the size to the literal
`"0 B"` (together: the `headingNoSel` string). -/
theorem renderHeading_three_rows (s : State) :
    (∀ rh k, renderHeading s = some (rh, k) → k = 3)
    ∧ (s.tree.selected = none →
        renderHeading s = some (headingNoSel s, 3)
        ∧ ∀ (cfg : Renderer) (H W : Int),
            (Render cfg s H W).1
                = (renderTreeWithContent cfg s.tree s.selectedContent (H - 3) W).1.map
                    (fun body => headingNoSel s ++ "\n" ++ body)
              ∧ (Render cfg s H W).2
                  = (renderTreeWithContent cfg s.tree s.selectedContent (H - 3) W).2) := by
  constructor
  · exact fun rh k hh => renderHeading_len s rh k hh
  · intro hns
    have hhead : renderHeading s = some (headingNoSel s, 3) := by
      simp [renderHeading, hns, headingNoSel, String.append_assoc]
    refine ⟨hhead, ?_⟩
    intro cfg H W
    unfold Render
    rw [hhead]
    cases hb : (renderTreeWithContent cfg s.tree s.selectedContent (H - 3) W).1 with
    | none =>
      simp only [Nat.cast_ofNat]
      rw [hb]
      simp [hb]
    | some body =>
      simp only [Nat.cast_ofNat]
      rw [hb]
      simp [hb]

theorem renderHeading_three_rows_witness :
    stateEx.tree.selected = none
      ∧ renderHeading stateEx = some (headingNoSel stateEx, 3)
      ∧ (Render ⟨2, 0⟩ stateEx 20 40).1
          = (renderTreeWithContent ⟨2, 0⟩ stateEx.tree stateEx.selectedContent (20 - 3) 40).1.map
              (fun body => headingNoSel stateEx ++ "\n" ++ body) :=
  ⟨rfl, ((renderHeading_three_rows stateEx).2 rfl).1,
    (((renderHeading_three_rows stateEx).2 rfl).2 ⟨2, 0⟩ 20 40).1⟩

end BT
